import Mathlib

set_option autoImplicit false

/-!
Shallow embedding of the dealership-catalog application (`app.py`).

Text handling is modelled over ASCII: Python's `str.lower`, `str.strip`,
`str.capitalize` and SQLite's `LOWER` agree with the ASCII case map on
ASCII text, which the character-level functions below implement explicitly
so that every definition is structurally recursive and kernel-evaluable.
Timestamps are modelled as naturals (`CURRENT_TIMESTAMP` values compare in
insertion order), database rows as Lean structures, and each Flask handler
as a pure function from its request form and the relevant table state to an
outcome together with the updated table state.
-/

namespace ProdazhaAuto

/-- A character is Python-strippable whitespace (ASCII subset). -/
def isPySpace (c : Char) : Bool :=
  c == ' ' || c == '\t' || c == '\n' || c == '\r' || c == '\x0b' || c == '\x0c'

/-- Python `str.strip()`: drop leading and trailing whitespace. -/
def pyStrip (s : String) : String :=
  String.mk (((s.toList.dropWhile isPySpace).reverse.dropWhile isPySpace).reverse)

/-- ASCII lower-casing of one character (Python `str.lower` / SQLite `LOWER`). -/
def lowerChar (c : Char) : Char :=
  if 65 ≤ c.toNat ∧ c.toNat ≤ 90 then Char.ofNat (c.toNat + 32) else c

/-- ASCII upper-casing of one character. -/
def upperChar (c : Char) : Char :=
  if 97 ≤ c.toNat ∧ c.toNat ≤ 122 then Char.ofNat (c.toNat - 32) else c

/-- ASCII lower-casing of a string. -/
def lowerStr (s : String) : String :=
  String.mk (s.toList.map lowerChar)

/-- Python `str.capitalize()`: upper-case the first character, lower-case the rest. -/
def pyCapitalize (s : String) : String :=
  match s.toList with
  | [] => ""
  | c :: cs => String.mk (upperChar c :: cs.map lowerChar)

/-- Is the character an ASCII decimal digit? -/
def isDigitChar (c : Char) : Bool :=
  48 ≤ c.toNat && c.toNat ≤ 57

/-- Value of an ASCII digit. -/
def digitVal (c : Char) : Nat :=
  c.toNat - 48

/-- Parse a non-empty all-digit character list as a natural number. -/
def decDigits (cs : List Char) : Option Nat :=
  if !cs.isEmpty && cs.all isDigitChar then
    some (cs.foldl (fun a c => a * 10 + digitVal c) 0)
  else none

/-- Python `int(s)` on a string: optional surrounding whitespace, optional
sign, then decimal digits; any other shape raises `ValueError`. -/
def pyParseInt (s : String) : Option Int :=
  match (pyStrip s).toList with
  | '+' :: ds => (decDigits ds).map (fun n => (n : Int))
  | '-' :: ds => (decDigits ds).map (fun n => -(n : Int))
  | ds => (decDigits ds).map (fun n => (n : Int))

/-- `safe_int` from `app.py`: `int(value)` guarded by `try/except`, where a
missing value (`None`) or an unparsable string yields `None`. -/
def safe_int : Option String → Option Int
  | none => none
  | some s => pyParseInt s

/-- Python truthiness of an optional form string (`None` and `""` are falsy). -/
def pyTruthy : Option String → Bool
  | none => false
  | some s => !(s == "")

/-- Python `x or d` for an optional integer `x` (`None` and `0` are falsy). -/
def pyOrInt (o : Option Int) (d : Int) : Int :=
  match o with
  | none => d
  | some n => if n == 0 then d else n

/-- Python `x or d` for an optional string `x` (`None` and `""` are falsy). -/
def pyOrStr (o : Option String) (d : String) : String :=
  match o with
  | none => d
  | some s => if s == "" then d else s

/-- Python `not x` for an optional integer (`None` and `0` are falsy). -/
def pyFalsyInt : Option Int → Bool
  | none => true
  | some n => n == 0

/-- A row of the `users` table. -/
structure User where
  id : Nat
  name : String
  email : String
  phone : String
  password_hash : String
  role : String
deriving DecidableEq

/-- A row of the `cars` table. -/
structure Car where
  id : Nat
  brand : String
  model : String
  year : Int
  price : Int
  mileage : Int
  fuel_type : Option String
  country : String
  image_url : String
  description : String
deriving DecidableEq

/-- A row of the `leads` table. -/
structure Lead where
  id : Nat
  name : String
  phone : String
  email : String
  car_id : Option Int
  preferred_brand : String
  preferred_model : String
  country : Option String
  budget : Option Int
  comment : String
  created_at : Nat
  user_id : Nat
deriving DecidableEq

/-- A row of the `tracking_events` table. -/
structure TrackingEvent where
  id : Nat
  car_id : Int
  status : String
  location : String
  eta : String
  comment : String
  updated_at : Nat
deriving DecidableEq

/-- SQL `LIKE` pattern matching over characters already on a common case:
`%` matches any run of characters, `_` matches exactly one character, and
every other pattern character matches itself. -/
def likeMatch : List Char → List Char → Bool
  | [], s => s.isEmpty
  | p :: ps, s =>
    if p == '%' then s.tails.any (fun t => likeMatch ps t)
    else
      match s with
      | [] => false
      | c :: s2 => (p == '_' || p == c) && likeMatch ps s2

/-- The `LIKE` pattern built by `index` for a search query:
`f"%{search_query.lower()}%"`. -/
def likePatternChars (q : String) : List Char :=
  '%' :: ((lowerStr q).toList ++ ['%'])

/-- Normalization of the country filter in `index`:
`country_filter.strip().lower().capitalize()` when the raw filter is
present and non-empty, `None` otherwise. -/
def normalizedCountry : Option String → Option String
  | none => none
  | some s => if s == "" then none else some (pyCapitalize (lowerStr (pyStrip s)))

/-- Membership test `normalized_country.lower() in {'china', 'korea'}`. -/
def countryAllowListed (n : String) : Bool :=
  lowerStr n == "china" || lowerStr n == "korea"

/-- The country `WHERE` clause of `index`: added only when the normalized
filter is truthy and allow-listed, in which case a row passes when
`LOWER(country)` equals the normalized (capitalized) filter value. -/
def countryClauseHolds (cf : Option String) (car : Car) : Bool :=
  match normalizedCountry cf with
  | none => true
  | some n =>
    if !(n == "") && countryAllowListed n then lowerStr car.country == n else true

/-- The search `WHERE` clause of `index`: added only for a truthy query, in
which case a row passes when `LOWER(brand)` or `LOWER(model)` matches the
pattern `%query.lower()%` under SQL `LIKE`. -/
def searchClauseHolds (q : Option String) (car : Car) : Bool :=
  match q with
  | none => true
  | some qs =>
    if qs == "" then true
    else
      likeMatch (likePatternChars qs) (lowerStr car.brand).toList ||
        likeMatch (likePatternChars qs) (lowerStr car.model).toList

/-- The row selection of the catalog query in `index`: both clauses joined
with `AND` (a missing clause is `true`). -/
def selectedCars (cars : List Car) (cf q : Option String) : List Car :=
  cars.filter (fun car => countryClauseHolds cf car && searchClauseHolds q car)

/-- Insert into a list sorted by `le`, keeping existing order on ties. -/
def insertOrdered {α : Type} (le : α → α → Bool) (x : α) : List α → List α
  | [] => [x]
  | y :: ys => if le x y then x :: y :: ys else y :: insertOrdered le x ys

/-- Insertion sort by `le`; models a SQL `ORDER BY` (the claims below only
use that sorting permutes the selected rows). -/
def sortBy {α : Type} (le : α → α → Bool) : List α → List α
  | [] => []
  | x :: xs => insertOrdered le x (sortBy le xs)

/-- The list of cars returned by `index`: selection by the optional country
filter and search query, then `ORDER BY year DESC`. -/
def index (cars : List Car) (cf q : Option String) : List Car :=
  sortBy (fun a b => decide (b.year ≤ a.year)) (selectedCars cars cf q)

/-- `MAX(updated_at)` over the group of events of one car (`GROUP BY car_id`
subquery of `latest_tracking`). -/
def groupMax (evs : List TrackingEvent) (car : Int) : Nat :=
  ((evs.filter (fun e => e.car_id == car)).map (fun e => e.updated_at)).foldl Nat.max 0

/-- The rows produced by the self-join in `latest_tracking`: every event
whose `updated_at` equals the maximum `updated_at` of its car's group. -/
def latestJoinRows (evs : List TrackingEvent) : List TrackingEvent :=
  evs.filter (fun e => e.updated_at == groupMax evs e.car_id)

/-- One step of the Python dict comprehension `{row['car_id']: row ...}`:
replace the value if the key is present, append the pair otherwise. -/
def dictInsert (m : List (Int × TrackingEvent)) (e : TrackingEvent) :
    List (Int × TrackingEvent) :=
  if m.any (fun p => p.1 == e.car_id) then
    m.map (fun p => if p.1 == e.car_id then (p.1, e) else p)
  else m ++ [(e.car_id, e)]

/-- `latest_tracking` from `app.py`: the dict from car id to that car's
latest tracking event, built by folding the join rows through the dict
comprehension (a later row for the same key overwrites the earlier one). -/
def latest_tracking (evs : List TrackingEvent) : List (Int × TrackingEvent) :=
  (latestJoinRows evs).foldl dictInsert []

/-- Lookup in the `latest_tracking` dict (the spec's `latestPerCar`). -/
def latestPerCar (evs : List TrackingEvent) (car : Int) : Option TrackingEvent :=
  ((latest_tracking evs).find? (fun p => p.1 == car)).map (fun p => p.2)

/-- Result of dispatching a guarded route. -/
inductive RouteResult (α : Type) where
  | redirectLogin (nextUrl : String)
  | redirectIndex
  | page (body : α)
deriving DecidableEq

/-- The `role_required` decorator: an anonymous caller is redirected to the
login page with the requested URL preserved in `next`; an authenticated
caller whose role is outside the non-empty allow list is redirected to the
index page; otherwise the wrapped view runs. -/
def role_required {α : Type} (roles : List String) (requestUrl : String)
    (user : Option User) (view : Unit → RouteResult α) : RouteResult α :=
  match user with
  | none => RouteResult.redirectLogin requestUrl
  | some u =>
    if !roles.isEmpty && !(roles.contains u.role) then RouteResult.redirectIndex
    else view ()

/-- The persistent store (the four tables). -/
structure Store where
  users : List User
  cars : List Car
  leads : List Lead
  tracking_events : List TrackingEvent

/-- A lead as returned by the `leads_list` query: the row joined (LEFT) with
its car's brand/model and its user's name/email/role. -/
structure EnrichedLead where
  lead : Lead
  car_brand : Option String
  car_model : Option String
  user_name : Option String
  user_email : Option String
  user_role : Option String
deriving DecidableEq

/-- The `SELECT` of `leads_list`: leads LEFT JOINed with cars and users,
ordered by creation time descending. -/
def leadsQuery (st : Store) : List EnrichedLead :=
  sortBy (fun a b => decide (b.lead.created_at ≤ a.lead.created_at))
    (st.leads.map (fun L =>
      let car := L.car_id.bind (fun cid => st.cars.find? (fun c => ((c.id : Int) == cid)))
      let usr := st.users.find? (fun u => u.id == L.user_id)
      ⟨L, car.map Car.brand, car.map Car.model,
        usr.map User.name, usr.map User.email, usr.map User.role⟩))

/-- The `/leads` route: the `leads_list` view guarded by
`role_required('admin')`. -/
def leads_list (requestUrl : String) (user : Option User) (st : Store) :
    RouteResult (List EnrichedLead) :=
  role_required ["admin"] requestUrl user (fun _ => RouteResult.page (leadsQuery st))

/-- Form fields of the `POST /add` request. -/
structure CarForm where
  brand : Option String
  model : Option String
  year : Option String
  price : Option String
  mileage : Option String
  fuel_type : Option String
  country : Option String
  image_url : Option String
  description : Option String

/-- Outcome of `add_car`. -/
inductive AddCarOutcome where
  | validationError
  | success
deriving DecidableEq

/-- `add_car` from `app.py`: reject when any of brand, model, year, price,
country is missing or empty; otherwise insert a car row, with the numeric
fields going through `safe_int(...) or 0`. -/
def add_car (cars : List Car) (nextId : Nat) (f : CarForm) : AddCarOutcome × List Car :=
  if !pyTruthy f.brand || !pyTruthy f.model || !pyTruthy f.year ||
      !pyTruthy f.price || !pyTruthy f.country then
    (AddCarOutcome.validationError, cars)
  else
    (AddCarOutcome.success,
      cars ++ [⟨nextId, pyStrip (f.brand.getD ""), pyStrip (f.model.getD ""),
        pyOrInt (safe_int f.year) 0, pyOrInt (safe_int f.price) 0,
        pyOrInt (safe_int f.mileage) 0, f.fuel_type, f.country.getD "",
        pyOrStr f.image_url "", pyOrStr f.description ""⟩])

/-- Form fields of the `POST /lead` request. -/
structure LeadForm where
  name : Option String
  phone : Option String
  email : Option String
  preferred_brand : Option String
  preferred_model : Option String
  budget : Option String
  preferred_country : Option String
  comment : Option String
  car_id : Option String

/-- Outcome of `create_lead`. -/
inductive LeadOutcome where
  | validationError
  | success
deriving DecidableEq

/-- `create_lead` from `app.py`: reject when the stripped name or phone is
empty; otherwise insert a lead row owned by the current user, with `car_id`
and `budget` going through `safe_int` (absent when unparsable). -/
def create_lead (leads : List Lead) (nextId : Nat) (now : Nat) (f : LeadForm)
    (currentUser : User) : LeadOutcome × List Lead :=
  let name := pyStrip (f.name.getD "")
  let phone := pyStrip (f.phone.getD "")
  let email := pyStrip (f.email.getD "")
  let preferred_brand := pyStrip (f.preferred_brand.getD "")
  let preferred_model := pyStrip (f.preferred_model.getD "")
  let comment := pyStrip (f.comment.getD "")
  if name == "" || phone == "" then
    (LeadOutcome.validationError, leads)
  else
    (LeadOutcome.success,
      leads ++ [⟨nextId, name, phone, email, safe_int f.car_id, preferred_brand,
        preferred_model, f.preferred_country, safe_int f.budget, comment, now,
        currentUser.id⟩])

/-- Form fields of the `POST /tracking/manage` request. -/
structure TrackingForm where
  car_id : Option String
  status : Option String
  location : Option String
  eta : Option String
  comment : Option String

/-- Outcome of the `POST` branch of `manage_tracking`. -/
inductive TrackingOutcome where
  | validationError
  | success
deriving DecidableEq

/-- The `POST` branch of `manage_tracking` from `app.py`: `car_id` goes
through `safe_int`, the text fields are stripped; the insert is rejected
when `not car_id or not status or not location`, and otherwise an event row
is appended with `updated_at` defaulted to the insertion time. -/
def manage_tracking_post (events : List TrackingEvent) (nextId : Nat) (now : Nat)
    (f : TrackingForm) : TrackingOutcome × List TrackingEvent :=
  let car_id := safe_int f.car_id
  let status := pyStrip (f.status.getD "")
  let location := pyStrip (f.location.getD "")
  let eta := pyStrip (f.eta.getD "")
  let comment := pyStrip (f.comment.getD "")
  if pyFalsyInt car_id || status == "" || location == "" then
    (TrackingOutcome.validationError, events)
  else
    (TrackingOutcome.success,
      events ++ [⟨nextId, car_id.getD 0, status, location, eta, comment, now⟩])

/-- State of the identity subsystem: the `users` table plus the next
autoincrement id. -/
structure AuthState where
  users : List User
  nextId : Nat
deriving DecidableEq

/-- Form fields of the `POST /auth/register` request. -/
structure RegisterForm where
  name : Option String
  email : Option String
  phone : Option String
  password : Option String
  password_confirm : Option String

/-- Outcome of `register`. -/
inductive RegisterOutcome where
  | alreadyAuthenticated
  | validationError
  | passwordMismatch
  | conflictError
  | success (userId : Nat)
deriving DecidableEq

/-- Modelled from the spec: password hashing delegates to
`werkzeug.security.generate_password_hash`, an external collaborator that
is out of scope; it is modelled as an abstract tagging of the password. -/
def hashPassword (p : String) : String :=
  "hashed:" ++ p

/-- `get_current_user` from `app.py`: resolve the session's `user_id` (falsy
values mean no session) to a user row, or none when the id is stale. -/
def get_current_user (users : List User) (sess : Option Nat) : Option User :=
  match sess with
  | none => none
  | some uid => if uid == 0 then none else users.find? (fun u => u.id == uid)

/-- `register` from `app.py` (`POST` branch): redirect away when already
authenticated; reject when a mandatory field is blank after stripping or
the two passwords differ; reject with a conflict when the lower-cased email
is already stored; otherwise insert the user (role defaults to `customer`)
and put the new id into the session. Returns the outcome, the new state and
the session value after the request. -/
def register (st : AuthState) (sess : Option Nat) (f : RegisterForm) :
    RegisterOutcome × AuthState × Option Nat :=
  match get_current_user st.users sess with
  | some _ => (RegisterOutcome.alreadyAuthenticated, st, sess)
  | none =>
    let name := pyStrip (f.name.getD "")
    let email := lowerStr (pyStrip (f.email.getD ""))
    let phone := pyStrip (f.phone.getD "")
    let password := pyStrip (f.password.getD "")
    let password_confirm := pyStrip (f.password_confirm.getD "")
    if name == "" || email == "" || password == "" || password_confirm == "" then
      (RegisterOutcome.validationError, st, sess)
    else if !(password == password_confirm) then
      (RegisterOutcome.passwordMismatch, st, sess)
    else if (st.users.find? (fun u => u.email == email)).isSome then
      (RegisterOutcome.conflictError, st, sess)
    else
      (RegisterOutcome.success st.nextId,
        ⟨st.users ++ [⟨st.nextId, name, email, phone, hashPassword password, "customer"⟩],
          st.nextId + 1⟩,
        some st.nextId)


/-! ## Permutation facts about the `ORDER BY` model -/

theorem insertOrdered_perm {α : Type} (le : α → α → Bool) (x : α) :
    ∀ l : List α, (insertOrdered le x l).Perm (x :: l)
  | [] => List.Perm.refl _
  | y :: ys => by
    unfold insertOrdered
    by_cases h : le x y = true
    · rw [if_pos h]
    · rw [if_neg h]
      exact ((insertOrdered_perm le x ys).cons y).trans (List.Perm.swap x y ys)

theorem sortBy_perm {α : Type} (le : α → α → Bool) :
    ∀ l : List α, (sortBy le l).Perm l
  | [] => List.Perm.refl _
  | x :: xs =>
    (insertOrdered_perm le x (sortBy le xs)).trans ((sortBy_perm le xs).cons x)

theorem mem_sortBy {α : Type} (le : α → α → Bool) (a : α) (l : List α) :
    a ∈ sortBy le l ↔ a ∈ l :=
  (sortBy_perm le l).mem_iff

/-- Membership in the catalog listing: a car is returned by `index` exactly
when it is in the table and passes both `WHERE` clauses. -/
theorem mem_index (cars : List Car) (cf q : Option String) (car : Car) :
    car ∈ index cars cf q ↔
      car ∈ cars ∧ countryClauseHolds cf car = true ∧ searchClauseHolds q car = true := by
  unfold index selectedCars
  rw [mem_sortBy, List.mem_filter, Bool.and_eq_true]

/-! ## C5: a non-allow-listed country filter is silently ignored -/

/-- The normalized country filter value is not (case-insensitively) in the
allow list `{china, korea}`; an empty raw filter normalizes to `none` and
trivially satisfies this. -/
def normalizedNotAllowed (cf : String) : Bool :=
  match normalizedCountry (some cf) with
  | none => true
  | some n => !(countryAllowListed n)

/-- C5: For every country filter value whose normalized form is not
case-insensitively equal to "china" or "korea" (including the empty
string), `index` returns the same result set as when no country filter is
supplied: the filter is silently ignored, with no error. -/
theorem index_ignores_disallowed_country (cars : List Car) (cf : String)
    (q : Option String) (h : normalizedNotAllowed cf = true) :
    index cars (some cf) q = index cars none q := by
  unfold index selectedCars
  have hnone : ∀ car : Car, countryClauseHolds none car = true := fun _ => rfl
  have hsome : ∀ car : Car, countryClauseHolds (some cf) car = true := by
    intro car
    unfold normalizedNotAllowed at h
    unfold countryClauseHolds
    cases hn : normalizedCountry (some cf) with
    | none => rfl
    | some n =>
      rw [hn] at h
      simp only [Bool.not_eq_true_eq_eq_false] at h
      simp [h]
  have heq : (fun car => countryClauseHolds (some cf) car && searchClauseHolds q car) =
      (fun car => countryClauseHolds none car && searchClauseHolds q car) := by
    funext car
    rw [hnone car, hsome car]
  rw [heq]

/-- C5 witness: filtering by "japan" returns the unfiltered catalog. -/
theorem index_ignores_disallowed_country_witness :
    index [⟨1, "Kia", "Rio", 2020, 15000, 0, some "Petrol", "Korea", "", ""⟩]
        (some "japan") none =
      index [⟨1, "Kia", "Rio", 2020, 15000, 0, some "Petrol", "Korea", "", ""⟩] none none :=
  index_ignores_disallowed_country _ "japan" none (by decide)

/-! ## C9: the admin guard rejects unauthenticated callers before the view runs -/

/-- C9: An unauthenticated request to the admin-guarded `/leads` route is
redirected to login with the originally requested destination preserved;
the guard returns before any view body runs (the result is the same for
every view and every store state, so no read or write of the leads data
occurs). -/
theorem leads_list_unauthenticated_guard (requestUrl : String) (st st2 : Store)
    {a : Type} (view : Unit → RouteResult a) :
    role_required ["admin"] requestUrl none view = RouteResult.redirectLogin requestUrl ∧
    leads_list requestUrl none st = RouteResult.redirectLogin requestUrl ∧
    leads_list requestUrl none st = leads_list requestUrl none st2 :=
  ⟨rfl, rfl, rfl⟩

/-! ## C7: lead validation -/

/-- C7: `create_lead` with a name or phone that is blank after trimming
fails with ValidationError and persists no lead row; for every non-blank
trimmed name and phone the validation check passes and a row is appended. -/
theorem create_lead_blank_validation (leads : List Lead) (nextId now : Nat)
    (f : LeadForm) (u : User) :
    ((pyStrip (f.name.getD "") = "" ∨ pyStrip (f.phone.getD "") = "") →
      create_lead leads nextId now f u = (LeadOutcome.validationError, leads)) ∧
    (pyStrip (f.name.getD "") ≠ "" → pyStrip (f.phone.getD "") ≠ "" →
      (create_lead leads nextId now f u).1 = LeadOutcome.success ∧
      ∃ L : Lead, (create_lead leads nextId now f u).2 = leads ++ [L]) := by
  unfold create_lead
  constructor
  · intro h
    have : (pyStrip (f.name.getD "") == "" || pyStrip (f.phone.getD "") == "") = true := by
      rcases h with h | h <;> simp [h]
    simp only [this, if_true]
  · intro h1 h2
    have : (pyStrip (f.name.getD "") == "" || pyStrip (f.phone.getD "") == "") = false := by
      simp [h1, h2]
    simp only [this, Bool.false_eq_true, if_false]
    exact ⟨trivial, _, rfl⟩

/-- C7 witness: a blank phone is rejected and persists nothing, and
non-blank name and phone pass validation. -/
theorem create_lead_blank_validation_witness :
    create_lead [] 1 5 ⟨some "Ann", some "  ", none, none, none, none, none, none, none⟩
        ⟨7, "Ann", "a@b.com", "", "h", "customer"⟩ =
      (LeadOutcome.validationError, []) ∧
    (create_lead [] 1 5 ⟨some "Ann", some "+7 900", none, none, none, none, none, none, none⟩
        ⟨7, "Ann", "a@b.com", "", "h", "customer"⟩).1 = LeadOutcome.success :=
  ⟨(create_lead_blank_validation [] 1 5 _ _).1 (Or.inr (by decide)),
   ((create_lead_blank_validation [] 1 5 _ _).2 (by decide) (by decide)).1⟩


/-! ## SQL LIKE versus substring containment -/

/-- Kernel-checkable bound: `Char.ofNat` is left-inverted by `Char.toNat`
on the ASCII range used by the case maps. -/
theorem toNat_ofNat_ascii : ∀ n : Nat, n ≤ 122 → (Char.ofNat n).toNat = n := by decide

/-- Lower-casing never creates a `LIKE` wildcard character. -/
theorem lowerChar_ne_wildcard {c : Char} (h1 : c ≠ '%') (h2 : c ≠ '_') :
    lowerChar c ≠ '%' ∧ lowerChar c ≠ '_' := by
  unfold lowerChar
  by_cases h : 65 ≤ c.toNat ∧ c.toNat ≤ 90
  · rw [if_pos h]
    have ht : (Char.ofNat (c.toNat + 32)).toNat = c.toNat + 32 :=
      toNat_ofNat_ascii _ (by omega)
    constructor
    · intro he
      have := congrArg Char.toNat he
      rw [ht] at this
      have h37 : Char.toNat '%' = 37 := by decide
      omega
    · intro he
      have := congrArg Char.toNat he
      rw [ht] at this
      have h95 : Char.toNat '_' = 95 := by decide
      omega
  · rw [if_neg h]
    exact ⟨h1, h2⟩

/-- A pattern consisting of a single `%` matches every string. -/
theorem likeMatch_percent_any : ∀ s : List Char, likeMatch ['%'] s = true := by
  intro s
  unfold likeMatch
  rw [if_pos (show ('%' == '%') = true by rfl), List.any_eq_true]
  exact ⟨[], (List.mem_tails _ _).mpr List.nil_suffix, by rfl⟩

/-- A wildcard-free pattern followed by `%` matches exactly the strings it
is a prefix of. -/
theorem likeMatch_lit_percent {q : List Char} (hq : ∀ c ∈ q, c ≠ '%' ∧ c ≠ '_') :
    ∀ t : List Char, likeMatch (q ++ ['%']) t = true ↔ q <+: t := by
  induction q with
  | nil =>
    intro t
    simp [likeMatch_percent_any t, List.nil_prefix]
  | cons a q2 ih =>
    intro t
    obtain ⟨ha1, ha2⟩ := hq a (List.mem_cons_self a q2)
    have hq2 : ∀ c ∈ q2, c ≠ '%' ∧ c ≠ '_' := fun c hc => hq c (List.mem_cons_of_mem a hc)
    rw [List.cons_append]
    unfold likeMatch
    rw [if_neg (by simpa using ha1)]
    cases t with
    | nil =>
      simp only [Bool.false_eq_true, false_iff]
      intro hpre
      exact absurd ( List.prefix_nil.mp hpre) (by simp)
    | cons c t2 =>
      rw [ List.cons_prefix_cons, Bool.and_eq_true, Bool.or_eq_true]
      constructor
      · rintro ⟨hh, hm⟩
        rcases hh with hh | hh
        · exact absurd (by simpa using hh) ha2
        · exact ⟨by simpa using hh, (ih hq2 t2).mp hm⟩
      · rintro ⟨hh, hm⟩
        exact ⟨Or.inr (by simpa using hh), (ih hq2 t2).mpr hm⟩

/-- The pattern `%q%` built by `index`, for a wildcard-free `q`, matches a
string exactly when `q` occurs in it as a contiguous substring. -/
theorem likeMatch_sub_pattern {q : List Char} (hq : ∀ c ∈ q, c ≠ '%' ∧ c ≠ '_')
    (s : List Char) : likeMatch ('%' :: (q ++ ['%'])) s = true ↔ q <:+: s := by
  unfold likeMatch
  rw [if_pos (show ('%' == '%') = true by rfl), List.any_eq_true]
  rw [ List.infix_iff_prefix_suffix]
  constructor
  · rintro ⟨t, ht, hm⟩
    exact ⟨t, (likeMatch_lit_percent hq t).mp hm, (List.mem_tails t s).mp ht⟩
  · rintro ⟨t, hpre, hsuf⟩
    exact ⟨t, (List.mem_tails t s).mpr hsuf, (likeMatch_lit_percent hq t).mpr hpre⟩


/-- Unfolding helper: the character list of a packed string. -/
theorem toList_mk (l : List Char) : (String.mk l).toList = l := rfl

/-! ## C4: search semantics -/

/-- C4 counterexample: the search query is interpolated into a SQL `LIKE`
pattern, so a query containing the one-character wildcard `_` matches a car
although it is not a substring of the brand or the model: the claim's
predicted result set for this catalog is empty, yet the car is returned. -/
theorem index_search_wildcard_counterexample :
    index [⟨1, "Kia", "Rio", 2020, 15000, 0, some "Petrol", "Korea", "", ""⟩]
        none (some "r_o") =
      [⟨1, "Kia", "Rio", 2020, 15000, 0, some "Petrol", "Korea", "", ""⟩] ∧
    ¬((lowerStr "r_o").toList <:+: (lowerStr "Kia").toList) ∧
    ¬((lowerStr "r_o").toList <:+: (lowerStr "Rio").toList) := by decide

/-- C4 (amended): for every non-empty search query containing neither of
the SQL `LIKE` wildcard characters `%` and `_`, `index` returns exactly the
cars for which the query is a case-insensitive substring of the brand or of
the model; queries containing a wildcard are instead interpreted as `LIKE`
patterns. -/
theorem index_search_substring (cars : List Car) (q : String) (car : Car)
    (hq : q ≠ "") (hw : ∀ c ∈ q.toList, c ≠ '%' ∧ c ≠ '_') :
    car ∈ index cars none (some q) ↔
      car ∈ cars ∧
        ((lowerStr q).toList <:+: (lowerStr car.brand).toList ∨
          (lowerStr q).toList <:+: (lowerStr car.model).toList) := by
  have hcc : countryClauseHolds none car = true := rfl
  have hwl : ∀ c ∈ (lowerStr q).toList, c ≠ '%' ∧ c ≠ '_' := by
    intro c hc
    rw [lowerStr, toList_mk] at hc
    rcases List.mem_map.mp hc with ⟨c0, hc0, rfl⟩
    exact lowerChar_ne_wildcard (hw c0 hc0).1 (hw c0 hc0).2
  have hsearch : searchClauseHolds (some q) car = true ↔
      ((lowerStr q).toList <:+: (lowerStr car.brand).toList ∨
        (lowerStr q).toList <:+: (lowerStr car.model).toList) := by
    simp only [searchClauseHolds, likePatternChars]
    rw [if_neg (show ¬((q == "") = true) by simpa using hq)]
    rw [Bool.or_eq_true, likeMatch_sub_pattern hwl, likeMatch_sub_pattern hwl]
  rw [mem_index]
  constructor
  · rintro ⟨hm, _, hs⟩
    exact ⟨hm, hsearch.mp hs⟩
  · rintro ⟨hm, hs⟩
    exact ⟨hm, hcc, hsearch.mpr hs⟩

/-- C4 witness: the wildcard-free query "Ri" returns the Kia Rio, whose
model contains it case-insensitively. -/
theorem index_search_substring_witness :
    (⟨1, "Kia", "Rio", 2020, 15000, 0, some "Petrol", "Korea", "", ""⟩ : Car) ∈
      index [⟨1, "Kia", "Rio", 2020, 15000, 0, some "Petrol", "Korea", "", ""⟩]
        none (some "Ri") :=
  (index_search_substring _ "Ri" _ (by decide) (by decide)).mpr
    ⟨List.mem_singleton.mpr rfl, Or.inr (by decide)⟩


/-! ## C1: the capitalized country parameter can never match `LOWER(country)` -/

/-- The output of `lowerChar` is never an upper-case ASCII letter. -/
theorem lowerChar_not_upper_range (c : Char) :
    ¬(65 ≤ (lowerChar c).toNat ∧ (lowerChar c).toNat ≤ 90) := by
  unfold lowerChar
  by_cases h : 65 ≤ c.toNat ∧ c.toNat ≤ 90
  · rw [if_pos h]
    have ht : (Char.ofNat (c.toNat + 32)).toNat = c.toNat + 32 :=
      toNat_ofNat_ascii _ (by omega)
    omega
  · rw [if_neg h]
    exact h

/-- Unfolding helper: the character list of a lower-cased string. -/
theorem lowerStr_toList (s : String) : (lowerStr s).toList = s.toList.map lowerChar := rfl

/-- When the country filter survives normalization and the allow-list test,
its value starts with a capital letter while `LOWER(country)` is all
lower-case, so the `WHERE` clause of `index` holds for no row at all. -/
theorem active_country_clause_false (cf n : String) (car : Car)
    (hn : normalizedCountry (some cf) = some n) (ha : countryAllowListed n = true) :
    (lowerStr car.country == n) = false := by
  have hmap : n.toList.map lowerChar = "china".toList ∨ n.toList.map lowerChar = "korea".toList := by
    unfold countryAllowListed at ha
    rcases Bool.or_eq_true .. |>.mp ha with h | h
    · left
      have := congrArg String.toList (beq_iff_eq.mp h)
      rwa [lowerStr_toList] at this
    · right
      have := congrArg String.toList (beq_iff_eq.mp h)
      rwa [lowerStr_toList] at this
  cases hnl : n.toList with
  | nil =>
    rw [hnl] at hmap
    rcases hmap with h | h <;> exact absurd h (by decide)
  | cons n0 nrest =>
    rw [hnl] at hmap
    have hhead : lowerChar n0 = 'c' ∨ lowerChar n0 = 'k' := by
      rcases hmap with h | h
      · left
        rw [show "china".toList = 'c' :: "hina".toList from rfl, List.map_cons] at h
        exact (List.cons.injEq .. |>.mp h).1
      · right
        rw [show "korea".toList = 'k' :: "orea".toList from rfl, List.map_cons] at h
        exact (List.cons.injEq .. |>.mp h).1
    -- n is the output of pyCapitalize, so its head is upperChar of something
    have hred : normalizedCountry (some cf) =
        (if (cf == "") = true then none else some (pyCapitalize (lowerStr (pyStrip cf)))) := rfl
    rw [hred] at hn
    by_cases hcf : (cf == "") = true
    · rw [if_pos hcf] at hn
      exact absurd hn (by simp)
    · rw [if_neg hcf] at hn
      have hncap : n = pyCapitalize (lowerStr (pyStrip cf)) := (Option.some.injEq .. |>.mp hn).symm
      cases hx : (lowerStr (pyStrip cf)).toList with
      | nil =>
        have hcap : pyCapitalize (lowerStr (pyStrip cf)) = "" := by
          unfold pyCapitalize
          rw [hx]
        rw [hcap] at hncap
        rw [hncap] at hnl
        exact absurd hnl (by simp)
      | cons x0 xs =>
        have hcap : pyCapitalize (lowerStr (pyStrip cf)) =
            String.mk (upperChar x0 :: xs.map lowerChar) := by
          unfold pyCapitalize
          rw [hx]
        rw [hcap] at hncap
        have hlist : n.toList = upperChar x0 :: xs.map lowerChar := by
          rw [hncap]
          rfl
        have hhd : n0 = upperChar x0 := by
          rw [hnl] at hlist
          exact (List.cons.injEq .. |>.mp hlist).1
        -- now suppose the clause held for `car`
        by_contra hne
        have htrue : (lowerStr car.country == n) = true := by
          cases hb : (lowerStr car.country == n)
          · exact absurd hb hne
          · rfl
        have hcountry := congrArg String.toList (beq_iff_eq.mp htrue)
        rw [lowerStr_toList, hnl] at hcountry
        cases hcl : car.country.toList with
        | nil =>
          rw [hcl] at hcountry
          exact absurd hcountry (by simp)
        | cons z0 zs =>
          rw [hcl, List.map_cons] at hcountry
          have hz : lowerChar z0 = n0 := (List.cons.injEq .. |>.mp hcountry).1
          have h5 : ¬(65 ≤ n0.toNat ∧ n0.toNat ≤ 90) := hz ▸ lowerChar_not_upper_range z0
          unfold upperChar at hhd
          by_cases hx0 : 97 ≤ x0.toNat ∧ x0.toNat ≤ 122
          · rw [if_pos hx0] at hhd
            have ht : (Char.ofNat (x0.toNat - 32)).toNat = x0.toNat - 32 :=
              toNat_ofNat_ascii _ (by omega)
            have := congrArg Char.toNat hhd
            omega
          · rw [if_neg hx0] at hhd
            have hn0v : n0.toNat = 99 ∨ n0.toNat = 107 := by
              have hid : lowerChar n0 = n0 := by
                unfold lowerChar
                rw [if_neg h5]
              rcases hhead with h | h
              · left
                rw [hid] at h
                exact congrArg Char.toNat h
              · right
                rw [hid] at h
                exact congrArg Char.toNat h
            have := congrArg Char.toNat hhd
            omega

/-- When the country filter normalizes to an allow-listed value, `index`
returns the empty list whatever the catalog and search query are: the
`WHERE` clause compares `LOWER(country)` against the re-capitalized filter
value, which no row can equal. -/
theorem index_active_country_filter_empty (cars : List Car) (cf : String)
    (q : Option String) (n : String)
    (hn : normalizedCountry (some cf) = some n) (ha : countryAllowListed n = true) :
    index cars (some cf) q = [] := by
  have hne : (n == "") = false := by
    cases hb : (n == "")
    · rfl
    · rw [beq_iff_eq.mp hb] at ha
      exact absurd ha (by decide)
  unfold index selectedCars
  have hfil : cars.filter (fun car => countryClauseHolds (some cf) car && searchClauseHolds q car) = [] := by
    rw [List.filter_eq_nil_iff]
    intro car hcar
    have hcc : countryClauseHolds (some cf) car = false := by
      have hred : countryClauseHolds (some cf) car =
          (if !(n == "") && countryAllowListed n then lowerStr car.country == n else true) := by
        unfold countryClauseHolds
        rw [show normalizedCountry (some cf) = some n from hn]
      rw [hred, if_pos (by rw [hne, ha]; rfl)]
      exact active_country_clause_false cf n car hn ha
    simp [hcc]
  rw [hfil]
  rfl

/-- C1 (code bug): with any allow-listed country filter such as "china",
`index` returns no cars at all — for every catalog and search query — even
though the demo catalog contains a car whose country field
case-insensitively equals the filter value; the claimed filtered listing is
never produced because the bound parameter keeps its capital letter while
`LOWER(country)` is all lower-case. -/
theorem index_country_filter_bug :
    (∀ (cars : List Car) (q : Option String), index cars (some "china") q = []) ∧
    lowerStr (⟨3, "BYD", "Han", 2023, 45000, 0, some "Electric", "China", "", ""⟩ : Car).country =
      lowerStr "china" ∧
    index [⟨3, "BYD", "Han", 2023, 45000, 0, some "Electric", "China", "", ""⟩]
      (some "china") none = [] := by
  refine ⟨fun cars q => index_active_country_filter_empty cars "china" q "China" (by decide) (by decide), by decide, ?_⟩
  exact index_active_country_filter_empty _ "china" none "China" (by decide) (by decide)


/-! ## C3: tracking-event validation -/

/-- C3 counterexample: a non-blank but unparsable `car_id` with non-blank
status and location is rejected with a validation error and nothing is
appended, although the claim says such a request always appends an event. -/
theorem manage_tracking_unparsable_rejected :
    pyStrip "abc" ≠ "" ∧
    manage_tracking_post [] 1 5 ⟨some "abc", some "loaded", some "port", none, none⟩ =
      (TrackingOutcome.validationError, []) := by decide

/-- C3 (amended): `manage_tracking` (POST) fails with ValidationError if
and only if `car_id` is missing or does not parse as a nonzero integer, or
status or location is blank after trimming — an unparsable or zero
`car_id` IS rejected, unlike the other numeric fields of the application;
the error leaves the events unchanged, and otherwise a new TrackingEvent
carrying the parsed car id and timestamped at insertion time is appended. -/
theorem manage_tracking_validation (events : List TrackingEvent) (nextId now : Nat)
    (f : TrackingForm) :
    ((manage_tracking_post events nextId now f).1 = TrackingOutcome.validationError ↔
      (safe_int f.car_id = none ∨ safe_int f.car_id = some 0 ∨
        pyStrip (f.status.getD "") = "" ∨ pyStrip (f.location.getD "") = "")) ∧
    ((manage_tracking_post events nextId now f).1 = TrackingOutcome.validationError →
      (manage_tracking_post events nextId now f).2 = events) ∧
    ((manage_tracking_post events nextId now f).1 = TrackingOutcome.success →
      ∃ e : TrackingEvent, (manage_tracking_post events nextId now f).2 = events ++ [e] ∧
        e.updated_at = now ∧ some e.car_id = safe_int f.car_id ∧
        e.status = pyStrip (f.status.getD "") ∧ e.location = pyStrip (f.location.getD "")) := by
  have hcond : (pyFalsyInt (safe_int f.car_id) || pyStrip (f.status.getD "") == "" ||
      pyStrip (f.location.getD "") == "") = true ↔
      (safe_int f.car_id = none ∨ safe_int f.car_id = some 0 ∨
        pyStrip (f.status.getD "") = "" ∨ pyStrip (f.location.getD "") = "") := by
    cases h : safe_int f.car_id with
    | none => simp [pyFalsyInt, or_assoc]
    | some v => simp [pyFalsyInt, or_assoc]
  unfold manage_tracking_post
  by_cases hb : (pyFalsyInt (safe_int f.car_id) || pyStrip (f.status.getD "") == "" ||
      pyStrip (f.location.getD "") == "") = true
  · rw [if_pos hb]
    refine ⟨by simp [hcond.mp hb], fun _ => rfl, fun h => absurd h.symm (by simp)⟩
  · rw [if_neg hb]
    refine ⟨⟨fun h => absurd h.symm (by simp), fun h => absurd (hcond.mpr h) hb⟩,
      fun h => absurd h.symm (by simp), fun _ => ?_⟩
    refine ⟨_, rfl, rfl, ?_, rfl, rfl⟩
    cases hci : safe_int f.car_id with
    | none => exact absurd (hcond.mpr (Or.inl hci)) hb
    | some v => simp [hci]

/-- C3 witness for the amended claim: a parsable nonzero car id with
non-blank status and location appends exactly one event timestamped now. -/
theorem manage_tracking_validation_witness :
    ∃ e : TrackingEvent,
      (manage_tracking_post [] 1 5 ⟨some "2", some "loaded", some "port", none, none⟩).2 =
        [] ++ [e] ∧ e.updated_at = 5 ∧
        some e.car_id = safe_int (some "2") ∧
        e.status = pyStrip ((some "loaded").getD "") ∧
        e.location = pyStrip ((some "port").getD "") :=
  (manage_tracking_validation [] 1 5 ⟨some "2", some "loaded", some "port", none, none⟩).2.2
    (by decide)

/-! ## C8: unparsable numeric input is coerced, not rejected -/

/-- C8: unparsable numeric input never causes rejection in `add_car` and
`create_lead`: when the required (respectively mandatory-text) fields are
present, the row is always inserted; an unparsable year, price or mileage
is stored as 0, and an unparsable carId or budget is stored as absent. -/
theorem numeric_leniency (cars : List Car) (n1 : Nat) (f : CarForm)
    (leads : List Lead) (n2 now : Nat) (g : LeadForm) (u : User)
    (hreq : (pyTruthy f.brand && pyTruthy f.model && pyTruthy f.year &&
      pyTruthy f.price && pyTruthy f.country) = true)
    (hname : pyStrip (g.name.getD "") ≠ "") (hphone : pyStrip (g.phone.getD "") ≠ "") :
    (∃ c : Car, add_car cars n1 f = (AddCarOutcome.success, cars ++ [c]) ∧
      (safe_int f.year = none → c.year = 0) ∧
      (safe_int f.price = none → c.price = 0) ∧
      (safe_int f.mileage = none → c.mileage = 0)) ∧
    (∃ L : Lead, create_lead leads n2 now g u = (LeadOutcome.success, leads ++ [L]) ∧
      L.car_id = safe_int g.car_id ∧ L.budget = safe_int g.budget) := by
  constructor
  · unfold add_car
    simp only [Bool.and_eq_true] at hreq
    rw [if_neg (by simp [hreq.1.1.1.1, hreq.1.1.1.2, hreq.1.1.2, hreq.1.2, hreq.2])]
    refine ⟨_, rfl, fun h => ?_, fun h => ?_, fun h => ?_⟩ <;> simp [pyOrInt, h]
  · unfold create_lead
    rw [if_neg (by simp [hname, hphone])]
    exact ⟨_, rfl, rfl, rfl⟩

/-- C8 witness: unparsable year and mileage are stored as 0, and an
unparsable carId and budget are stored as absent, with both rows inserted. -/
theorem numeric_leniency_witness :
    (∃ c : Car,
      add_car [] 1 ⟨some "Kia", some "Rio", some "twenty20", some "15000", some "n/a",
          none, some "Korea", none, none⟩ = (AddCarOutcome.success, [] ++ [c]) ∧
        (safe_int (some "twenty20") = none → c.year = 0) ∧
        (safe_int (some "15000") = none → c.price = 0) ∧
        (safe_int (some "n/a") = none → c.mileage = 0)) ∧
    (∃ L : Lead,
      create_lead [] 1 5 ⟨some "Ann", some "+7 900", none, none, none, some "lots",
          none, none, some "car#3"⟩ ⟨7, "Ann", "a@b.com", "", "h", "customer"⟩ =
        (LeadOutcome.success, [] ++ [L]) ∧
        L.car_id = safe_int (some "car#3") ∧ L.budget = safe_int (some "lots")) :=
  numeric_leniency [] 1 _ [] 1 5 _ _ (by decide) (by decide) (by decide)


/-! ## C6: duplicate registration is rejected -/

/-- C6: a successful registration stores the new user with default role
`customer` and puts the new user id into the session; a second
registration whose email equals the first one up to trimming and casing
then fails with a conflict and leaves the users table unchanged. -/
theorem register_second_email_conflict
    (st : AuthState) (sess1 sess2 : Option Nat) (f1 f2 : RegisterForm)
    (uid : Nat) (st2 : AuthState) (sessOut : Option Nat)
    (h1 : register st sess1 f1 = (RegisterOutcome.success uid, st2, sessOut))
    (h2 : get_current_user st2.users sess2 = none)
    (hname : pyStrip (f2.name.getD "") ≠ "")
    (hpw : pyStrip (f2.password.getD "") ≠ "")
    (hmatch : pyStrip (f2.password.getD "") = pyStrip (f2.password_confirm.getD ""))
    (hemail : lowerStr (pyStrip (f2.email.getD "")) = lowerStr (pyStrip (f1.email.getD ""))) :
    register st2 sess2 f2 = (RegisterOutcome.conflictError, st2, sess2) ∧
    sessOut = some uid ∧
    ∃ u : User, st2.users = st.users ++ [u] ∧ u.role = "customer" ∧ u.id = uid ∧
      u.email = lowerStr (pyStrip (f1.email.getD "")) := by
  cases hcu : get_current_user st.users sess1 with
  | some u =>
    have hr : register st sess1 f1 = (RegisterOutcome.alreadyAuthenticated, st, sess1) := by
      unfold register
      rw [hcu]
    rw [hr] at h1
    exact absurd (congrArg Prod.fst h1) (by simp)
  | none =>
    have hr : register st sess1 f1 =
        (if (pyStrip (f1.name.getD "") == "" || lowerStr (pyStrip (f1.email.getD "")) == "" ||
            pyStrip (f1.password.getD "") == "" || pyStrip (f1.password_confirm.getD "") == "") then
          (RegisterOutcome.validationError, st, sess1)
        else if !(pyStrip (f1.password.getD "") == pyStrip (f1.password_confirm.getD "")) then
          (RegisterOutcome.passwordMismatch, st, sess1)
        else if (st.users.find? (fun u => u.email == lowerStr (pyStrip (f1.email.getD "")))).isSome then
          (RegisterOutcome.conflictError, st, sess1)
        else
          (RegisterOutcome.success st.nextId,
            ⟨st.users ++ [⟨st.nextId, pyStrip (f1.name.getD ""),
              lowerStr (pyStrip (f1.email.getD "")), pyStrip (f1.phone.getD ""),
              hashPassword (pyStrip (f1.password.getD "")), "customer"⟩],
              st.nextId + 1⟩,
            some st.nextId)) := by
      unfold register
      rw [hcu]
    rw [hr] at h1
    by_cases hc1 : (pyStrip (f1.name.getD "") == "" || lowerStr (pyStrip (f1.email.getD "")) == "" ||
        pyStrip (f1.password.getD "") == "" || pyStrip (f1.password_confirm.getD "") == "") = true
    · rw [if_pos hc1] at h1
      exact absurd (congrArg Prod.fst h1) (by simp)
    · rw [if_neg hc1] at h1
      by_cases hc2 : (!(pyStrip (f1.password.getD "") == pyStrip (f1.password_confirm.getD ""))) = true
      · rw [if_pos hc2] at h1
        exact absurd (congrArg Prod.fst h1) (by simp)
      · rw [if_neg hc2] at h1
        by_cases hc3 :
            ((st.users.find? (fun u => u.email == lowerStr (pyStrip (f1.email.getD "")))).isSome) = true
        · rw [if_pos hc3] at h1
          exact absurd (congrArg Prod.fst h1) (by simp)
        · rw [if_neg hc3] at h1
          simp only [Prod.mk.injEq, RegisterOutcome.success.injEq] at h1
          obtain ⟨h1a, h1b, h1c⟩ := h1
          have hemail1 : lowerStr (pyStrip (f1.email.getD "")) ≠ "" := by
            intro he
            apply hc1
            simp [he]
          have husers : st2.users = st.users ++
              [⟨st.nextId, pyStrip (f1.name.getD ""), lowerStr (pyStrip (f1.email.getD "")),
                pyStrip (f1.phone.getD ""), hashPassword (pyStrip (f1.password.getD "")),
                "customer"⟩] := by
            rw [← h1b]
          refine ⟨?_, by rw [← h1c, h1a], ⟨_, husers, rfl, h1a, rfl⟩⟩
          have hr2 : register st2 sess2 f2 =
              (if (pyStrip (f2.name.getD "") == "" || lowerStr (pyStrip (f2.email.getD "")) == "" ||
                  pyStrip (f2.password.getD "") == "" || pyStrip (f2.password_confirm.getD "") == "") then
                (RegisterOutcome.validationError, st2, sess2)
              else if !(pyStrip (f2.password.getD "") == pyStrip (f2.password_confirm.getD "")) then
                (RegisterOutcome.passwordMismatch, st2, sess2)
              else if (st2.users.find? (fun u => u.email == lowerStr (pyStrip (f2.email.getD "")))).isSome then
                (RegisterOutcome.conflictError, st2, sess2)
              else
                (RegisterOutcome.success st2.nextId,
                  ⟨st2.users ++ [⟨st2.nextId, pyStrip (f2.name.getD ""),
                    lowerStr (pyStrip (f2.email.getD "")), pyStrip (f2.phone.getD ""),
                    hashPassword (pyStrip (f2.password.getD "")), "customer"⟩],
                    st2.nextId + 1⟩,
                  some st2.nextId)) := by
            unfold register
            rw [h2]
          have hfind : (st2.users.find?
              (fun u => u.email == lowerStr (pyStrip (f2.email.getD "")))).isSome := by
            refine List.find?_isSome.mpr
              ⟨⟨st.nextId, pyStrip (f1.name.getD ""), lowerStr (pyStrip (f1.email.getD "")),
                pyStrip (f1.phone.getD ""), hashPassword (pyStrip (f1.password.getD "")),
                "customer"⟩, ?_, ?_⟩
            · rw [husers]
              exact List.mem_append_right _ (List.mem_singleton.mpr rfl)
            · exact beq_iff_eq.mpr hemail.symm
          rw [hr2]
          rw [if_neg (by simp [hname, hpw, hemail ▸ hemail1, hmatch ▸ hpw])]
          rw [if_neg (by simp [hmatch])]
          rw [if_pos hfind]

/-- C6 witness: registering "A@B.com" creates a customer-role user and a
session for it; a second registration with "a@B.COM" hits the conflict and
changes nothing. -/
theorem register_second_email_conflict_witness :
    register ⟨[⟨1, "Ann", "a@b.com", "", "hashed:pw", "customer"⟩], 2⟩ none
        ⟨some "Bob", some "a@B.COM", some "", some "pw2", some "pw2"⟩ =
      (RegisterOutcome.conflictError,
        ⟨[⟨1, "Ann", "a@b.com", "", "hashed:pw", "customer"⟩], 2⟩, none) ∧
    (some 1 : Option Nat) = some 1 ∧
    ∃ u : User, [⟨1, "Ann", "a@b.com", "", "hashed:pw", "customer"⟩] = [] ++ [u] ∧
      u.role = "customer" ∧ u.id = 1 ∧
      u.email = lowerStr (pyStrip ((some " A@B.com ").getD "")) :=
  register_second_email_conflict ⟨[], 1⟩ none none
    ⟨some "Ann", some " A@B.com ", some "", some "pw", some "pw"⟩
    ⟨some "Bob", some "a@B.COM", some "", some "pw2", some "pw2"⟩
    1 ⟨[⟨1, "Ann", "a@b.com", "", "hashed:pw", "customer"⟩], 2⟩ (some 1)
    (by decide) (by decide) (by decide) (by decide) (by decide) (by decide)


/-! ## Facts about the latest-event query -/

theorem foldl_max_bounds (l : List Nat) :
    ∀ a : Nat, a ≤ l.foldl Nat.max a ∧ ∀ x ∈ l, x ≤ l.foldl Nat.max a := by
  induction l with
  | nil =>
    intro a
    exact ⟨Nat.le_refl a, by simp⟩
  | cons y l ih =>
    intro a
    have h := ih (Nat.max a y)
    refine ⟨Nat.le_trans (Nat.le_max_left a y) h.1, ?_⟩
    intro x hx
    rcases List.mem_cons.mp hx with rfl | hx
    · exact Nat.le_trans (Nat.le_max_right a x) h.1
    · exact h.2 x hx

theorem foldl_max_attained (l : List Nat) :
    ∀ a : Nat, l.foldl Nat.max a ∈ l ∨ l.foldl Nat.max a = a := by
  induction l with
  | nil =>
    intro a
    exact Or.inr rfl
  | cons y l ih =>
    intro a
    rcases ih (Nat.max a y) with h | h
    · exact Or.inl (List.mem_cons_of_mem y h)
    · have hchoice : Nat.max a y = a ∨ Nat.max a y = y := by
        rcases Nat.le_total a y with hle | hle
        · exact Or.inr (Nat.max_eq_right hle)
        · exact Or.inl (Nat.max_eq_left hle)
      rcases hchoice with hm | hm
      · right
        rw [List.foldl_cons, h, hm]
      · left
        rw [List.foldl_cons, h, hm]
        exact List.mem_cons_self y l

theorem mem_latestJoinRows {evs : List TrackingEvent} {e : TrackingEvent} :
    e ∈ latestJoinRows evs ↔ e ∈ evs ∧ e.updated_at = groupMax evs e.car_id := by
  unfold latestJoinRows
  rw [List.mem_filter]
  simp

theorem groupMax_ge {evs : List TrackingEvent} {e2 : TrackingEvent} (h : e2 ∈ evs)
    (c : Int) (hc : e2.car_id = c) : e2.updated_at ≤ groupMax evs c := by
  unfold groupMax
  refine (foldl_max_bounds _ 0).2 _ ?_
  exact List.mem_map.mpr ⟨e2, List.mem_filter.mpr ⟨h, by simp [hc]⟩, rfl⟩

theorem exists_latestJoinRow {evs : List TrackingEvent} {c : Int}
    (h : ∃ e ∈ evs, e.car_id = c) : ∃ e ∈ latestJoinRows evs, e.car_id = c := by
  obtain ⟨e0, he0, hc0⟩ := h
  rcases foldl_max_attained
      ((evs.filter (fun e => e.car_id == c)).map (fun e => e.updated_at)) 0 with hm | hm
  · rcases List.mem_map.mp hm with ⟨e1, he1, hup⟩
    have he1evs := (List.mem_filter.mp he1).1
    have hc1 : e1.car_id = c := by
      have := (List.mem_filter.mp he1).2
      simpa using this
    refine ⟨e1, mem_latestJoinRows.mpr ⟨he1evs, ?_⟩, hc1⟩
    rw [hc1]
    exact hup
  · have h0 : groupMax evs c = 0 := hm
    have hle := groupMax_ge he0 c hc0
    refine ⟨e0, mem_latestJoinRows.mpr ⟨he0, ?_⟩, hc0⟩
    rw [hc0, h0]
    omega

theorem key_of_replace (e : TrackingEvent) (p : Int × TrackingEvent) :
    (if (p.1 == e.car_id) = true then (p.1, e) else p).1 = p.1 := by
  by_cases hp : (p.1 == e.car_id) = true <;> simp [hp]

theorem mem_foldl_dictInsert :
    ∀ (l : List TrackingEvent) (init : List (Int × TrackingEvent)) (p : Int × TrackingEvent),
      p ∈ l.foldl dictInsert init → p ∈ init ∨ (p.2 ∈ l ∧ p.1 = p.2.car_id) := by
  intro l
  induction l with
  | nil =>
    intro init p hp
    exact Or.inl hp
  | cons e l ih =>
    intro init p hp
    rcases ih (dictInsert init e) p hp with h | h
    · unfold dictInsert at h
      by_cases hk : (init.any (fun q => q.1 == e.car_id)) = true
      · rw [if_pos hk] at h
        rcases List.mem_map.mp h with ⟨q, hq, hqe⟩
        by_cases hqk : (q.1 == e.car_id) = true
        · rw [if_pos hqk] at hqe
          right
          rw [← hqe]
          exact ⟨List.mem_cons_self e l, beq_iff_eq.mp hqk⟩
        · rw [if_neg hqk] at hqe
          rw [← hqe]
          exact Or.inl hq
      · rw [if_neg hk] at h
        rcases List.mem_append.mp h with h | h
        · exact Or.inl h
        · right
          rw [List.mem_singleton.mp h]
          exact ⟨List.mem_cons_self e l, rfl⟩
    · exact Or.inr ⟨List.mem_cons_of_mem e h.1, h.2⟩

theorem replace_comp_key (e : TrackingEvent) (c : Int) :
    ((fun p : Int × TrackingEvent => p.1 == c) ∘
      (fun p => if (p.1 == e.car_id) = true then (p.1, e) else p)) =
    (fun p : Int × TrackingEvent => p.1 == c) := by
  funext p
  simp only [Function.comp_apply, key_of_replace]

theorem any_key_dictInsert_mono {m : List (Int × TrackingEvent)} {e : TrackingEvent} {c : Int}
    (h : m.any (fun p => p.1 == c) = true) :
    (dictInsert m e).any (fun p => p.1 == c) = true := by
  unfold dictInsert
  by_cases hk : (m.any (fun q => q.1 == e.car_id)) = true
  · rw [if_pos hk, List.any_map, replace_comp_key]
    exact h
  · rw [if_neg hk, List.any_append, h]
    rfl

theorem any_key_dictInsert_self (m : List (Int × TrackingEvent)) (e : TrackingEvent) :
    (dictInsert m e).any (fun p => p.1 == e.car_id) = true := by
  unfold dictInsert
  by_cases hk : (m.any (fun q => q.1 == e.car_id)) = true
  · rw [if_pos hk, List.any_map, replace_comp_key]
    exact hk
  · rw [if_neg hk, List.any_append]
    simp

theorem any_key_foldl_mono :
    ∀ (l : List TrackingEvent) (init : List (Int × TrackingEvent)) (c : Int),
      init.any (fun p => p.1 == c) = true →
      (l.foldl dictInsert init).any (fun p => p.1 == c) = true := by
  intro l
  induction l with
  | nil =>
    intro init c h
    exact h
  | cons e l ih =>
    intro init c h
    exact ih (dictInsert init e) c (any_key_dictInsert_mono h)

theorem any_key_foldl_of_mem :
    ∀ (l : List TrackingEvent) (init : List (Int × TrackingEvent)) (c : Int),
      (∃ e ∈ l, e.car_id = c) →
      (l.foldl dictInsert init).any (fun p => p.1 == c) = true := by
  intro l
  induction l with
  | nil =>
    intro init c h
    exact absurd h (by simp)
  | cons e l ih =>
    intro init c h
    rcases h with ⟨e0, he0, hc0⟩
    rcases List.mem_cons.mp he0 with rfl | hmem
    · rw [← hc0]
      exact any_key_foldl_mono l (dictInsert init e0) e0.car_id (any_key_dictInsert_self init e0)
    · exact ih (dictInsert init e) c ⟨e0, hmem, hc0⟩

theorem countP_key_dictInsert {m : List (Int × TrackingEvent)} (e : TrackingEvent)
    (h : ∀ c : Int, m.countP (fun p => p.1 == c) =
      if m.any (fun p => p.1 == c) then 1 else 0) (c : Int) :
    (dictInsert m e).countP (fun p => p.1 == c) =
      if (dictInsert m e).any (fun p => p.1 == c) then 1 else 0 := by
  unfold dictInsert
  by_cases hk : (m.any (fun q => q.1 == e.car_id)) = true
  · rw [if_pos hk, List.countP_map, List.any_map, replace_comp_key]
    exact h c
  · rw [if_neg hk, List.countP_append, List.any_append]
    by_cases hec : (e.car_id == c) = true
    · have hmc : m.any (fun p => p.1 == c) = false := by
        rw [← beq_iff_eq.mp hec]
        cases hb : m.any (fun q => q.1 == e.car_id)
        · rfl
        · exact absurd hb hk
      rw [h c, hmc]
      simp [hec]
    · have hec2 : (e.car_id == c) = false := by
        cases hb : (e.car_id == c)
        · rfl
        · exact absurd hb hec
      have hcp : List.countP (fun p => p.1 == c) [(e.car_id, e)] = 0 := by
        simp [hec2]
      have hcond2 : ((m.any fun p => p.1 == c) || [(e.car_id, e)].any fun p => p.1 == c) =
          (m.any fun p => p.1 == c) := by
        simp [hec2]
      rw [h c, hcp, hcond2, Nat.add_zero]

theorem countP_key_foldl :
    ∀ (l : List TrackingEvent) (init : List (Int × TrackingEvent)),
      (∀ c : Int, init.countP (fun p => p.1 == c) =
        if init.any (fun p => p.1 == c) then 1 else 0) →
      ∀ c : Int, (l.foldl dictInsert init).countP (fun p => p.1 == c) =
        if (l.foldl dictInsert init).any (fun p => p.1 == c) then 1 else 0 := by
  intro l
  induction l with
  | nil =>
    intro init h c
    exact h c
  | cons e l ih =>
    intro init h c
    exact ih (dictInsert init e) (fun d => countP_key_dictInsert e h d) c

/-! ## C10: exactly one dict entry per car with history -/

/-- C10: for every tracking-event state, the dict built by
`latest_tracking` contains exactly one entry per car that has at least one
event — even when several events of the same car share the identical
maximal timestamp, the tied join rows collapse onto a single entry — and
no entry for any other car. -/
theorem latest_tracking_one_entry_per_car (evs : List TrackingEvent) (c : Int) :
    (latest_tracking evs).countP (fun p => p.1 == c) =
      if evs.any (fun e => e.car_id == c) then 1 else 0 := by
  have hgood := countP_key_foldl (latestJoinRows evs) [] (fun _ => rfl) c
  have hany : ((latestJoinRows evs).foldl dictInsert []).any (fun p => p.1 == c) =
      evs.any (fun e => e.car_id == c) := by
    cases hev : evs.any (fun e => e.car_id == c) with
    | false =>
      cases hmap : ((latestJoinRows evs).foldl dictInsert []).any (fun p => p.1 == c) with
      | false => rfl
      | true =>
        exfalso
        rcases List.any_eq_true.mp hmap with ⟨p, hp, hpc⟩
        rcases mem_foldl_dictInsert _ [] p hp with h | h
        · exact absurd h (List.not_mem_nil p)
        · have hpe : p.2 ∈ evs := (mem_latestJoinRows.mp h.1).1
          have : evs.any (fun e => e.car_id == c) = true :=
            List.any_eq_true.mpr ⟨p.2, hpe, by rw [← h.2]; exact hpc⟩
          rw [hev] at this
          exact Bool.false_ne_true this
    | true =>
      rcases List.any_eq_true.mp hev with ⟨e0, he0, hc0⟩
      exact any_key_foldl_of_mem _ [] c (exists_latestJoinRow ⟨e0, he0, beq_iff_eq.mp hc0⟩)
  unfold latest_tracking
  rw [hgood, hany]

/-! ## C2: the returned event per car is maximal -/

/-- C2: for every catalog state and every car that has at least one
tracking event, `latestPerCar` returns an event of that car whose
`updated_at` timestamp is maximal among that car's events: no returned
event is older than another event of the same car. -/
theorem latestPerCar_is_latest (evs : List TrackingEvent) (c : Int)
    (h : ∃ e ∈ evs, e.car_id = c) :
    ∃ e : TrackingEvent, latestPerCar evs c = some e ∧ e ∈ evs ∧ e.car_id = c ∧
      ∀ e2 ∈ evs, e2.car_id = c → e2.updated_at ≤ e.updated_at := by
  have hany : ((latestJoinRows evs).foldl dictInsert []).any (fun p => p.1 == c) = true :=
    any_key_foldl_of_mem _ [] c (exists_latestJoinRow h)
  have hsome : (((latestJoinRows evs).foldl dictInsert []).find? (fun p => p.1 == c)).isSome := by
    rcases List.any_eq_true.mp hany with ⟨p, hp, hpc⟩
    exact List.find?_isSome.mpr ⟨p, hp, hpc⟩
  rcases Option.isSome_iff_exists.mp hsome with ⟨p, hfind⟩
  have hpc : (p.1 == c) = true := by
    have hx := List.find?_some hfind
    exact hx
  have hpmem : p ∈ (latestJoinRows evs).foldl dictInsert [] := List.mem_of_find?_eq_some hfind
  rcases mem_foldl_dictInsert _ [] p hpmem with hinit | ⟨hjoin, hkey⟩
  · exact absurd hinit (List.not_mem_nil p)
  · obtain ⟨hevs, hmax⟩ := mem_latestJoinRows.mp hjoin
    have hcc : p.2.car_id = c := by
      rw [← hkey]
      exact beq_iff_eq.mp hpc
    refine ⟨p.2, ?_, hevs, hcc, ?_⟩
    · unfold latestPerCar latest_tracking
      rw [hfind]
      rfl
    · intro e2 he2 hc2
      rw [hmax, hcc]
      exact groupMax_ge he2 c hc2

/-- C2 witness: with two events for car 3, the newer one is returned and it
is not older than the other. -/
theorem latestPerCar_is_latest_witness :
    ∃ e : TrackingEvent,
      latestPerCar [⟨1, 3, "at port", "x", "", "", 10⟩, ⟨2, 3, "at sea", "y", "", "", 20⟩] 3 =
        some e ∧
      e ∈ ([⟨1, 3, "at port", "x", "", "", 10⟩,
        ⟨2, 3, "at sea", "y", "", "", 20⟩] : List TrackingEvent) ∧
      e.car_id = 3 ∧
      ∀ e2 ∈ ([⟨1, 3, "at port", "x", "", "", 10⟩,
        ⟨2, 3, "at sea", "y", "", "", 20⟩] : List TrackingEvent),
        e2.car_id = 3 → e2.updated_at ≤ e.updated_at :=
  latestPerCar_is_latest _ 3 (by decide)

end ProdazhaAuto

